import Mathlib

/-!
Shallow embedding of `src/pycs/hashing.py`: the `PycsDict` hash table.

Modelling conventions:
* Python's unbounded `int` is `Nat` where the value is provably non-negative
  (hash accumulators, indices) and `Int` where the source can go negative
  (the constructor argument `size` and the derived `capacity`).
* A cell of `self.table` is either `None`, a single `PycsDictEntry`, or a
  Python list that may contain `None` padding alongside entries, hence
  `Cell α` below with a `List (Option (Entry α))` bucket.
* Python exceptions raised by the code paths we model are the constructors
  of `PyErr`; fallible operations return `Except PyErr _`.
* `__setitem__` mutates `self` and also `return`s `old_value`; the embedding
  passes the state explicitly and returns the pair.
* The unused `next_entry` field of `PycsDictEntry` is omitted.
-/

/-- Embeds `PycsDictEntry` (key, value); the unused `next_entry` is omitted. -/
structure Entry (α : Type) where
  key : String
  value : α
deriving DecidableEq, Repr

/-- One slot of `self.table`: `None`, a single entry, or a list bucket whose
elements are `None` (padding created by `[None] * int(self.capacity / 4)`)
or entries. -/
inductive Cell (α : Type) where
  | none : Cell α
  | entry : Entry α → Cell α
  | bucket : List (Option (Entry α)) → Cell α
deriving DecidableEq, Repr

/-- Python exceptions raised by the modelled code paths. -/
inductive PyErr where
  | keyError : PyErr
  | attributeError : PyErr
  | indexError : PyErr
deriving DecidableEq, Repr

/-- Embeds the `PycsDict` object state: `self.size`, `self.capacity`,
`self.table`. `size` and `capacity` are `Int` because Python accepts
negative constructor arguments. -/
structure PycsDict (α : Type) where
  size : Int
  capacity : Int
  table : List (Cell α)
deriving DecidableEq, Repr

/-- `PycsDict.FNV1A_OFFSET`. -/
def PycsDict.FNV1A_OFFSET : Nat := 14695981039346656037

/-- `PycsDict.FNV1A_PRIME`. -/
def PycsDict.FNV1A_PRIME : Nat := 1099511628211

/-- Embeds `PycsDict.__init__`: `self.size = size or 8` (Python defaults only
the falsy argument `0`), `self.capacity = size * 2` (note: the raw argument,
not `self.size`), `self.table = [None] * self.capacity` (a negative or zero
capacity yields the empty list, as in Python). -/
def mkPycsDict (α : Type) (size : Int) : PycsDict α :=
  ⟨if size = 0 then 8 else size, size * 2, List.replicate (size * 2).toNat Cell.none⟩

/-- Embeds the static method `PycsDict._get_hash`: FNV-1a-style accumulation
over the string's characters. Python iterates code points (`ord(char)`, which
is `Char.toNat`) and uses unbounded integers: there is no reduction modulo
2^64 anywhere. -/
def PycsDict._get_hash (key : String) : Nat :=
  key.data.foldl (fun h c => (h ^^^ c.toNat) * PycsDict.FNV1A_PRIME) PycsDict.FNV1A_OFFSET

/-- Embeds the static method `PycsDict._get_bucket_index`:
`hash_value % capacity`. For a non-negative dividend and positive modulus
Python's `%` agrees with `Nat.mod`; the operational embedding below only
invokes it with `capacity.toNat`, and every theorem about table operations
assumes `0 < capacity`, where this agrees with Python. -/
def PycsDict._get_bucket_index (hashValue : Nat) (capacity : Nat) : Nat :=
  hashValue % capacity

/-- The bucket index both `__getitem__` and `__setitem__` compute for `key`:
`PycsDict._get_bucket_index(PycsDict._get_hash(key), self.capacity)`. -/
def keyIndex (d : PycsDict α) (key : String) : Nat :=
  PycsDict._get_bucket_index (PycsDict._get_hash key) d.capacity.toNat

/-- Embeds the lookup loop of `__getitem__` over a list bucket
(`for e in bucket: if e.key == key: return e.value`): hitting a `None`
padding element evaluates `e.key` on `None` and raises `AttributeError`;
falling off the end means "not found" (`Option.none`). -/
def bucketFind (key : String) : List (Option (Entry α)) → Except PyErr (Option α)
  | [] => Except.ok Option.none
  | Option.none :: _ => Except.error PyErr.attributeError
  | Option.some e :: rest =>
    if e.key = key then Except.ok (Option.some e.value) else bucketFind key rest

/-- Embeds `PycsDict.__getitem__`. An out-of-range table access raises
`IndexError` (impossible for well-formed tables, see the bounds theorem);
a missing key raises `KeyError`. -/
def getItem (d : PycsDict α) (key : String) : Except PyErr α :=
  match d.table.get? (keyIndex d key) with
  | Option.none => Except.error PyErr.indexError
  | Option.some cell =>
    match cell with
    | Cell.none => Except.error PyErr.keyError
    | Cell.entry e =>
      if e.key = key then Except.ok e.value else Except.error PyErr.keyError
    | Cell.bucket l =>
      match bucketFind key l with
      | Except.error err => Except.error err
      | Except.ok (Option.some v) => Except.ok v
      | Except.ok Option.none => Except.error PyErr.keyError

/-- Embeds the overwrite loop of the list-bucket branch of `__setitem__`:
scan the bucket; touching a `None` padding element raises `AttributeError`
(`e.key` on `None`); on the first entry with a matching key the value is
overwritten in place and the loop `break`s (the rest of the list is left
unscanned). Returns the updated list and the captured old value
(`Option.none` when the key was not found). -/
def bucketOverwrite (key : String) (value : α) :
    List (Option (Entry α)) → Except PyErr (List (Option (Entry α)) × Option α)
  | [] => Except.ok ([], Option.none)
  | Option.none :: _ => Except.error PyErr.attributeError
  | Option.some e :: rest =>
    if e.key = key then
      Except.ok (Option.some ⟨e.key, value⟩ :: rest, Option.some e.value)
    else
      match bucketOverwrite key value rest with
      | Except.error err => Except.error err
      | Except.ok (l, old) => Except.ok (Option.some e :: l, old)

/-- Embeds `PycsDict.__setitem__`. Mirrors the source exactly:
* `old_value = value` initially, so the method returns the *new* value
  whenever the key was not already present;
* empty cell: place a single entry;
* single-entry cell with equal key: overwrite the value in place, return the
  old value;
* single-entry cell with different key: build a bucket pre-padded with
  `[None] * int(self.capacity / 4)` (float division then truncation, which
  for a non-negative capacity is `Nat` division), then append the existing
  entry and the new entry;
* list cell: run the overwrite loop, then append a fresh entry
  *unconditionally* (the source's `bucket.append(...)` is outside any
  conditional, despite its comment). -/
def setItem (d : PycsDict α) (key : String) (value : α) :
    Except PyErr (PycsDict α × α) :=
  match d.table.get? (keyIndex d key) with
  | Option.none => Except.error PyErr.indexError
  | Option.some cell =>
    match cell with
    | Cell.none =>
      Except.ok
        (⟨d.size, d.capacity, d.table.set (keyIndex d key) (Cell.entry ⟨key, value⟩)⟩, value)
    | Cell.entry e =>
      if e.key = key then
        Except.ok
          (⟨d.size, d.capacity, d.table.set (keyIndex d key) (Cell.entry ⟨e.key, value⟩)⟩,
           e.value)
      else
        Except.ok
          (⟨d.size, d.capacity,
            d.table.set (keyIndex d key)
              (Cell.bucket
                (List.replicate (d.capacity.toNat / 4) Option.none ++
                  [Option.some e, Option.some ⟨key, value⟩]))⟩,
           value)
    | Cell.bucket l =>
      match bucketOverwrite key value l with
      | Except.error err => Except.error err
      | Except.ok (l2, old) =>
        Except.ok
          (⟨d.size, d.capacity,
            d.table.set (keyIndex d key)
              (Cell.bucket (l2 ++ [Option.some ⟨key, value⟩]))⟩,
           old.getD value)

/-- The keys of the entries actually stored in one table cell (ignoring
`None` padding inside list buckets). -/
def cellKeys : Cell α → List String
  | Cell.none => []
  | Cell.entry e => [e.key]
  | Cell.bucket l => (l.filterMap id).map Entry.key

/-- The number of entries actually stored in one table cell. -/
def cellCount : Cell α → Nat
  | Cell.none => 0
  | Cell.entry _ => 1
  | Cell.bucket l => (l.filterMap id).length

/-- Total number of entry objects stored in the table. -/
def entryCount (d : PycsDict α) : Nat :=
  (d.table.map cellCount).sum

/-- Spec invariant 2: no bucket of the table contains two entries with equal
keys. -/
def dictNoDupKeys (d : PycsDict α) : Prop :=
  ∀ c ∈ d.table, (cellKeys c).Nodup

instance (d : PycsDict α) : Decidable (dictNoDupKeys d) :=
  List.decidableBAll _ d.table

/-! ### Concrete table states reached by short operation sequences

These are the exact states produced by the embedded operations (each equality
is proved by `rfl` in the theorems below). Digest facts used:
`_get_hash "a" ≡ _get_hash "e" ≡ 0`, `_get_hash "b" ≡ _get_hash "f" ≡ 1`
(mod 4), and `_get_hash "a" ≡ _get_hash "c" ≡ 0` (mod 2). -/

/-- State of `PycsDict(2)` after `d["a"] = 1`. -/
def c1d1 : PycsDict Nat :=
  ⟨2, 4, [Cell.entry ⟨"a", 1⟩, Cell.none, Cell.none, Cell.none]⟩

/-- State of `PycsDict(2)` after `d["a"] = 1; d["e"] = 2`: the colliding keys
share bucket 0, which is pre-padded with `[None] * int(4 / 4)`. -/
def c1d2 : PycsDict Nat :=
  ⟨2, 4,
   [Cell.bucket [Option.none, Option.some ⟨"a", 1⟩, Option.some ⟨"e", 2⟩],
    Cell.none, Cell.none, Cell.none]⟩

/-- State of `PycsDict(2)` after `d["b"] = 1`. -/
def c4d1 : PycsDict Nat :=
  ⟨2, 4, [Cell.none, Cell.entry ⟨"b", 1⟩, Cell.none, Cell.none]⟩

/-- State of `PycsDict(2)` after `d["b"] = 1; d["f"] = 2`. -/
def c4d2 : PycsDict Nat :=
  ⟨2, 4,
   [Cell.none,
    Cell.bucket [Option.none, Option.some ⟨"b", 1⟩, Option.some ⟨"f", 2⟩],
    Cell.none, Cell.none]⟩

/-- State of `PycsDict(4)` after `d["x"] = 7`. -/
def c5d1 : PycsDict Nat :=
  ⟨4, 8,
   [Cell.none, Cell.none, Cell.none, Cell.none, Cell.none, Cell.none,
    Cell.none, Cell.entry ⟨"x", 7⟩]⟩

/-- State of `PycsDict(1)` after `d["a"] = 0`. -/
def c7d1 : PycsDict Nat :=
  ⟨1, 2, [Cell.entry ⟨"a", 0⟩, Cell.none]⟩

/-- State of `PycsDict(1)` after `d["a"] = 0; d["c"] = 1`: at capacity 2 the
padding `[None] * int(2 / 4)` is empty, so the bucket holds just the two
colliding entries. -/
def c7d2 : PycsDict Nat :=
  ⟨1, 2,
   [Cell.bucket [Option.some ⟨"a", 0⟩, Option.some ⟨"c", 1⟩], Cell.none]⟩

/-- State of `PycsDict(1)` after `d["a"] = 0; d["c"] = 1; d["a"] = 2`: the
overwrite loop updates the first `"a"` entry in place, then the unconditional
`bucket.append` adds a second `"a"` entry. -/
def c7d3 : PycsDict Nat :=
  ⟨1, 2,
   [Cell.bucket
      [Option.some ⟨"a", 2⟩, Option.some ⟨"c", 1⟩, Option.some ⟨"a", 2⟩],
    Cell.none]⟩

/-! ### Claim theorems: concrete behaviours -/

/-- C1: the round-trip/collision claim fails on the code. In `PycsDict(2)`
(capacity 4), `"a"` and `"e"` hash to bucket 0; after setting both, the
collision bucket is `[None, Entry("a",1), Entry("e",2)]` because
`__setitem__` pre-pads it with `[None] * int(capacity / 4)`. `get` on either
present key then evaluates `e.key` on `None` and raises `AttributeError`
instead of returning the stored value. -/
theorem collision_get_raises_attribute_error :
    setItem (mkPycsDict Nat 2) "a" 1 = Except.ok (c1d1, 1) ∧
    setItem c1d1 "e" 2 = Except.ok (c1d2, 2) ∧
    getItem c1d2 "a" = Except.error PyErr.attributeError ∧
    getItem c1d2 "e" = Except.error PyErr.attributeError :=
  ⟨rfl, rfl, rfl, rfl⟩

/-- C3 (counterexample): the digest does not fit in an unsigned 64-bit
integer. Already for the one-character key `"a"`, the Python code's unbounded
multiplication (no reduction modulo 2^64) yields a value at least 2^64. -/
theorem get_hash_exceeds_64_bits : 2 ^ 64 ≤ PycsDict._get_hash "a" := by
  decide

/-- C4: absent keys do raise `KeyError` (typed and catchable in Python,
`Except.error PyErr.keyError` here), but the claim that get never fails on
*present* keys is false: in `PycsDict(2)`, after inserting the colliding keys
`"b"` and `"f"` (both hash to bucket 1 mod 4), `get` on the present key `"b"`
raises `AttributeError` because the collision bucket starts with a `None`
padding cell. -/
theorem present_key_get_fails :
    getItem (mkPycsDict Nat 2) "b" = Except.error PyErr.keyError ∧
    setItem (mkPycsDict Nat 2) "b" 1 = Except.ok (c4d1, 1) ∧
    setItem c4d1 "f" 2 = Except.ok (c4d2, 2) ∧
    getItem c4d2 "b" = Except.error PyErr.attributeError :=
  ⟨rfl, rfl, rfl, rfl⟩

/-- C5 (counterexample): `set` on a key that is not present returns the *new*
value, not `None`/absent: `__setitem__` initialises `old_value = value` and
returns it unchanged on the insert path. Here `"x"` is absent from the fresh
`PycsDict(4)` (`get` raises `KeyError`), yet `d["x"] = 7` returns `7`. -/
theorem set_absent_returns_new_value :
    getItem (mkPycsDict Nat 4) "x" = Except.error PyErr.keyError ∧
    setItem (mkPycsDict Nat 4) "x" 7 = Except.ok (c5d1, 7) :=
  ⟨rfl, rfl⟩

/-- C6: constructing with `size = 0` defaults `self.size` to 8 but computes
`self.capacity = size * 2` from the *raw argument*, giving capacity 0 and an
empty table; every subsequent operation would compute `hash % 0`
(`ZeroDivisionError` in Python). -/
theorem zero_size_gives_zero_capacity :
    (mkPycsDict Nat 0).size = 8 ∧ (mkPycsDict Nat 0).capacity = 0 ∧
    (mkPycsDict Nat 0).table = [] :=
  ⟨rfl, rfl, rfl⟩

/-- C7: the no-duplicate-keys bucket invariant is violated. In `PycsDict(1)`
(capacity 2, empty padding), insert colliding keys `"a"`, `"c"`, then set
`"a"` again: the overwrite loop updates the existing `"a"` entry, but the
unconditional `bucket.append` afterwards adds a second entry with key `"a"`,
so the bucket holds two entries with equal keys. -/
theorem overwrite_duplicates_entry :
    setItem (mkPycsDict Nat 1) "a" 0 = Except.ok (c7d1, 0) ∧
    setItem c7d1 "c" 1 = Except.ok (c7d2, 1) ∧
    dictNoDupKeys c7d2 ∧
    setItem c7d2 "a" 2 = Except.ok (c7d3, 0) ∧
    ¬ dictNoDupKeys c7d3 :=
  ⟨rfl, rfl, by decide, rfl, by decide⟩

/-- C8: for every positive capacity, `_get_bucket_index` is true modulo
reduction (`digest mod capacity`, no power-of-two masking) and lands strictly
below the capacity; no power-of-two restriction on the capacity is needed. -/
theorem bucket_index_mod (h c : Nat) (hc : 0 < c) :
    PycsDict._get_bucket_index h c = h % c ∧
    PycsDict._get_bucket_index h c < c :=
  ⟨rfl, Nat.mod_lt h hc⟩

/-- Witness for `bucket_index_mod` at digest 7 and the non-power-of-two
capacity 3. -/
theorem bucket_index_mod_witness :
    0 < 3 ∧ PycsDict._get_bucket_index 7 3 = 7 % 3 ∧
    PycsDict._get_bucket_index 7 3 < 3 :=
  ⟨by decide, (bucket_index_mod 7 3 (by decide)).1, (bucket_index_mod 7 3 (by decide)).2⟩

/-- C9: the digest of the empty string is exactly the FNV-1a offset basis
(the loop body never runs), and the digest is a pure function of the key, so
repeated calls agree. -/
theorem digest_empty_and_deterministic :
    PycsDict._get_hash "" = PycsDict.FNV1A_OFFSET ∧
    ∀ s : String, PycsDict._get_hash s = PycsDict._get_hash s :=
  ⟨rfl, fun _ => rfl⟩

/-! ### The digest modulo 2^64 -/

/-- Truncation to `n` bits commutes with XOR. -/
theorem xor_mod_two_pow (a b n : Nat) :
    (a ^^^ b) % 2 ^ n = a % 2 ^ n ^^^ b % 2 ^ n := by
  apply Nat.eq_of_testBit_eq
  intro i
  simp only [Nat.testBit_mod_two_pow, Nat.testBit_xor]
  by_cases h : i < n <;> simp [h]

/-- Modelled from the spec (§4.1), for comparison with the source's
`_get_hash`: the per-step 64-bit-wrapped FNV-1a accumulation over the key's
code points. (The spec prescribes processing raw UTF-8 bytes; the source
iterates code points via `ord(char)` — the two agree exactly on ASCII keys,
and this comparison definition follows the source's code-point traversal.) -/
def fnv1a64 (key : String) : Nat :=
  key.data.foldl
    (fun h c => (h ^^^ c.toNat) * PycsDict.FNV1A_PRIME % 2 ^ 64)
    PycsDict.FNV1A_OFFSET

/-- The unbounded FNV fold and the 64-bit-wrapped FNV fold agree modulo
2^64, for every accumulator. -/
theorem fnv_fold_congr (l : List Char) :
    ∀ a : Nat,
      l.foldl (fun h c => (h ^^^ c.toNat) * PycsDict.FNV1A_PRIME) a % 2 ^ 64 =
      l.foldl (fun h c => (h ^^^ c.toNat) * PycsDict.FNV1A_PRIME % 2 ^ 64)
        (a % 2 ^ 64) := by
  induction l with
  | nil => intro a; simp [Nat.mod_mod_of_dvd]
  | cons c l ih =>
    intro a
    simp only [List.foldl_cons]
    rw [ih]
    have hacc : (a ^^^ c.toNat) % 2 ^ 64 = (a % 2 ^ 64 ^^^ c.toNat) % 2 ^ 64 := by
      rw [xor_mod_two_pow, xor_mod_two_pow (a % 2 ^ 64)]
      congr 1
      exact (Nat.mod_mod_of_dvd a dvd_rfl).symm
    have hmul : (a ^^^ c.toNat) * PycsDict.FNV1A_PRIME % 2 ^ 64 =
        (a % 2 ^ 64 ^^^ c.toNat) * PycsDict.FNV1A_PRIME % 2 ^ 64 := by
      rw [Nat.mul_mod, hacc, ← Nat.mul_mod]
    rw [hmul]

/-- C3 (amended): the source digest is the FNV-1a accumulation over the
key's code points in unbounded arithmetic; its residue modulo 2^64 equals
the per-step 64-bit-wrapped FNV-1a over the same code points (though the
digest itself can exceed 2^64, see the counterexample theorem). -/
theorem get_hash_congruent_mod_two_pow_64 (key : String) :
    PycsDict._get_hash key % 2 ^ 64 = fnv1a64 key := by
  unfold PycsDict._get_hash fnv1a64
  rw [fnv_fold_congr]
  congr 1

/-! ### Insert/overwrite semantics and bounds -/

/-- Replacing the element at a present index changes a mapped sum by the
difference of the images. -/
theorem sum_map_set (f : β → Nat) :
    ∀ (l : List β) (i : Nat) (b a : β), l.get? i = Option.some b →
      ((l.set i a).map f).sum + f b = (l.map f).sum + f a := by
  intro l
  induction l with
  | nil => intro i b a h; simp at h
  | cons x l ih =>
    intro i b a h
    cases i with
    | zero =>
      simp only [List.get?_cons_zero, Option.some.injEq] at h
      subst h
      simp only [List.set_cons_zero, List.map_cons, List.sum_cons]
      omega
    | succ n =>
      simp only [List.get?_cons_succ] at h
      have hrec := ih n b a h
      simp only [List.set_cons_succ, List.map_cons, List.sum_cons]
      omega

/-- C5 (amended): `set` on an absent key (empty target cell) returns the
*new* value — the code initialises `old_value = value` — and stores one new
entry; a second `set` of the same key then hits the single-entry cell,
overwrites the value in place, returns the first value, leaves the number of
stored entries unchanged, and a subsequent `get` returns the second value. -/
theorem set_insert_then_overwrite (d : PycsDict α) (k : String) (v₁ v₂ : α)
    (h : d.table.get? (keyIndex d k) = Option.some Cell.none) :
    ∃ d₁ d₂ : PycsDict α,
      setItem d k v₁ = Except.ok (d₁, v₁) ∧
      setItem d₁ k v₂ = Except.ok (d₂, v₁) ∧
      getItem d₂ k = Except.ok v₂ ∧
      entryCount d₁ = entryCount d + 1 ∧
      entryCount d₂ = entryCount d₁ := by
  have hlt : keyIndex d k < d.table.length := by
    by_contra hge
    rw [List.get?_eq_none.mpr (Nat.le_of_not_lt hge)] at h
    exact Option.noConfusion h
  refine ⟨⟨d.size, d.capacity, d.table.set (keyIndex d k) (Cell.entry ⟨k, v₁⟩)⟩,
          ⟨d.size, d.capacity,
           (d.table.set (keyIndex d k) (Cell.entry ⟨k, v₁⟩)).set (keyIndex d k)
             (Cell.entry ⟨k, v₂⟩)⟩, ?_, ?_, ?_, ?_, ?_⟩
  · unfold setItem
    rw [h]
  · have hget1 : (d.table.set (keyIndex d k) (Cell.entry ⟨k, v₁⟩)).get? (keyIndex d k) =
        Option.some (Cell.entry ⟨k, v₁⟩) := by
      simp [List.get?_eq_getElem?, List.getElem?_set_self', List.getElem?_eq_getElem, hlt]
    unfold setItem
    rw [show keyIndex ⟨d.size, d.capacity,
          d.table.set (keyIndex d k) (Cell.entry ⟨k, v₁⟩)⟩ k = keyIndex d k from rfl]
    rw [hget1]
    simp
  · have hlt2 : keyIndex d k <
        ((d.table.set (keyIndex d k) (Cell.entry ⟨k, v₁⟩)).set (keyIndex d k)
          (Cell.entry ⟨k, v₂⟩)).length := by
      simpa using hlt
    have hget2 : ((d.table.set (keyIndex d k) (Cell.entry ⟨k, v₁⟩)).set (keyIndex d k)
        (Cell.entry ⟨k, v₂⟩)).get? (keyIndex d k) = Option.some (Cell.entry ⟨k, v₂⟩) := by
      simp [List.get?_eq_getElem?, List.getElem?_set_self', hlt,
        List.getElem?_eq_getElem, hlt2]
    unfold getItem
    rw [show keyIndex ⟨d.size, d.capacity,
          (d.table.set (keyIndex d k) (Cell.entry ⟨k, v₁⟩)).set (keyIndex d k)
            (Cell.entry ⟨k, v₂⟩)⟩ k = keyIndex d k from rfl]
    rw [hget2]
    simp
  · have := sum_map_set cellCount d.table (keyIndex d k) Cell.none
      (Cell.entry ⟨k, v₁⟩) h
    simp only [entryCount, cellCount] at this ⊢
    omega
  · have hget1 : (d.table.set (keyIndex d k) (Cell.entry ⟨k, v₁⟩)).get? (keyIndex d k) =
        Option.some (Cell.entry ⟨k, v₁⟩) := by
      simp [List.get?_eq_getElem?, List.getElem?_set_self', List.getElem?_eq_getElem, hlt]
    have := sum_map_set cellCount (d.table.set (keyIndex d k) (Cell.entry ⟨k, v₁⟩))
      (keyIndex d k) (Cell.entry ⟨k, v₁⟩) (Cell.entry ⟨k, v₂⟩) hget1
    simp only [entryCount, cellCount] at this ⊢
    omega

/-- Witness for `set_insert_then_overwrite`: in `PycsDict(4)` the cell for
`"a"` is empty. -/
theorem set_insert_then_overwrite_witness :
    (mkPycsDict Nat 4).table.get? (keyIndex (mkPycsDict Nat 4) "a") =
      Option.some Cell.none ∧
    ∃ d₁ d₂ : PycsDict Nat,
      setItem (mkPycsDict Nat 4) "a" 10 = Except.ok (d₁, 10) ∧
      setItem d₁ "a" 20 = Except.ok (d₂, 10) ∧
      getItem d₂ "a" = Except.ok 20 ∧
      entryCount d₁ = entryCount (mkPycsDict Nat 4) + 1 ∧
      entryCount d₂ = entryCount d₁ :=
  ⟨by decide, set_insert_then_overwrite (mkPycsDict Nat 4) "a" 10 20 (by decide)⟩

/-- The lookup loop over a bucket can only fail with `AttributeError`,
never `IndexError`. -/
theorem bucketFind_no_index_error (key : String) :
    ∀ l : List (Option (Entry α)), bucketFind key l ≠ Except.error PyErr.indexError := by
  intro l
  induction l with
  | nil => simp [bucketFind]
  | cons o rest ih =>
    cases o with
    | none => simp [bucketFind]
    | some e =>
      by_cases h : e.key = key <;> simp [bucketFind, h]
      exact ih

/-- The overwrite loop over a bucket can only fail with `AttributeError`,
never `IndexError`. -/
theorem bucketOverwrite_no_index_error (key : String) (value : α) :
    ∀ l : List (Option (Entry α)),
      bucketOverwrite key value l ≠ Except.error PyErr.indexError := by
  intro l
  induction l with
  | nil => simp [bucketOverwrite]
  | cons o rest ih =>
    cases o with
    | none => simp [bucketOverwrite]
    | some e =>
      by_cases h : e.key = key
      · simp [bucketOverwrite, h]
      · cases hr : bucketOverwrite key value rest with
        | error err =>
          have herr : err ≠ PyErr.indexError := by
            intro hcontr
            rw [hcontr] at hr
            exact ih hr
          simp [bucketOverwrite, h, hr, herr]
        | ok p => simp [bucketOverwrite, h, hr]

/-- C10: for a well-formed table (positive capacity equal to the backing
array's length — what `__init__` with a positive argument produces and every
operation preserves), the bucket index computed for any key is strictly
within bounds, so the table accesses of `get` and `set` never raise
`IndexError`. -/
theorem table_access_in_bounds (d : PycsDict α) (key : String)
    (hpos : 0 < d.capacity) (hlen : d.table.length = d.capacity.toNat) :
    keyIndex d key < d.table.length ∧
    (d.table.get? (keyIndex d key)).isSome ∧
    getItem d key ≠ Except.error PyErr.indexError ∧
    ∀ v : α, setItem d key v ≠ Except.error PyErr.indexError := by
  have hcap : 0 < d.capacity.toNat := by omega
  have hlt : keyIndex d key < d.table.length := by
    rw [hlen]
    exact Nat.mod_lt _ hcap
  have hsome : (d.table.get? (keyIndex d key)).isSome := by
    simp [List.get?_eq_getElem?, List.getElem?_eq_getElem hlt]
  refine ⟨hlt, hsome, ?_, ?_⟩
  · unfold getItem
    cases hget : d.table.get? (keyIndex d key) with
    | none =>
      rw [hget] at hsome
      simp at hsome
    | some cell =>
      cases cell with
      | none => simp
      | entry e => by_cases h : e.key = key <;> simp [h]
      | bucket l =>
        cases hf : bucketFind key l with
        | error err =>
          have herr : err ≠ PyErr.indexError := by
            intro hcontr
            rw [hcontr] at hf
            exact bucketFind_no_index_error key l hf
          simp [hf, herr]
        | ok o => cases o <;> simp [hf]
  · intro v
    unfold setItem
    cases hget : d.table.get? (keyIndex d key) with
    | none =>
      rw [hget] at hsome
      simp at hsome
    | some cell =>
      cases cell with
      | none => simp
      | entry e => by_cases h : e.key = key <;> simp [h]
      | bucket l =>
        cases hr : bucketOverwrite key v l with
        | error err =>
          have herr : err ≠ PyErr.indexError := by
            intro hcontr
            rw [hcontr] at hr
            exact bucketOverwrite_no_index_error key v l hr
          simp [hr, herr]
        | ok p => simp [hr]

/-- Witness for `table_access_in_bounds` on `PycsDict(4)` and key `"q"`. -/
theorem table_access_in_bounds_witness :
    keyIndex (mkPycsDict Nat 4) "q" < (mkPycsDict Nat 4).table.length ∧
    ((mkPycsDict Nat 4).table.get? (keyIndex (mkPycsDict Nat 4) "q")).isSome :=
  ⟨(table_access_in_bounds (mkPycsDict Nat 4) "q" (by decide) (by decide)).1,
   (table_access_in_bounds (mkPycsDict Nat 4) "q" (by decide) (by decide)).2.1⟩

/-! ### Spec model of the resizable table

The source has no resize: `__setitem__` opens with
`# TODO: add support for resizing the table when load factor exceeds
threshold`, and the spec (§9) promotes the missing resize to a required
feature (§4.4). The resize claim therefore concerns code absent from the
source and is settled against the following model of the spec's words. -/

/-- Modelled from the spec (§3): the uniform table — an array of buckets,
each bucket an ordered list of entries. (The spec's §9 replaces the source's
mixed-type cell with this uniform representation; the source itself has no
resize, no `delete` and no stored `count`.) -/
structure SpecTable (α : Type) where
  capacity : Nat
  buckets : List (List (Entry α))
deriving DecidableEq, Repr

/-- All live entries of the spec table, in bucket-then-chain order. -/
def SpecTable.entries (t : SpecTable α) : List (Entry α) :=
  t.buckets.flatten

/-- Spec invariant 3: the live-entry count is the sum of bucket lengths. -/
def specCount (t : SpecTable α) : Nat :=
  t.entries.length

/-- The bucket index of an entry at a given capacity, per spec invariant 1:
`bucket_index(digest(K), capacity)`, using the source's digest. -/
def newIndex (cap : Nat) (e : Entry α) : Nat :=
  PycsDict._get_bucket_index (PycsDict._get_hash e.key) cap

/-- Modelled from the spec (§4.4): resize. New capacity `max(1, old * 2)`;
every existing entry is re-placed into the bucket at its index recomputed
under the new capacity. The spec says entries may be processed in any order
(order is not observable), so bucket `j` of the new table holds exactly the
old entries whose recomputed index is `j`, in their old relative order. -/
def resize (t : SpecTable α) : SpecTable α :=
  ⟨max 1 (t.capacity * 2),
   (List.range (max 1 (t.capacity * 2))).map fun j =>
     t.entries.filter fun e => newIndex (max 1 (t.capacity * 2)) e = j⟩

/-- Modelled from the spec (§4.3): `set` without the resize step — compute
the index; if the bucket has an entry with equal key, overwrite its value in
place and return the old value; otherwise append a new entry and return
none. -/
def specInsert (t : SpecTable α) (key : String) (value : α) :
    SpecTable α × Option α :=
  let i := PycsDict._get_bucket_index (PycsDict._get_hash key) t.capacity
  let b := t.buckets.getD i []
  match b.find? fun e => e.key = key with
  | Option.some e =>
    (⟨t.capacity,
      t.buckets.set i (b.map fun e' => if e'.key = key then ⟨key, value⟩ else e')⟩,
     Option.some e.value)
  | Option.none =>
    (⟨t.capacity, t.buckets.set i (b ++ [⟨key, value⟩])⟩, Option.none)

/-- Modelled from the spec (§4.3–§4.4): `set` followed by the load-factor
check `count > LOAD_FACTOR * capacity` with `LOAD_FACTOR = 0.75`; on integer
count and capacity, `count > 0.75 * capacity` is exactly
`4 * count > 3 * capacity`. -/
def specSet (t : SpecTable α) (key : String) (value : α) :
    SpecTable α × Option α :=
  let r := specInsert t key value
  if 3 * r.1.capacity < 4 * specCount r.1 then (resize r.1, r.2) else r

/-- `specInsert` never changes the capacity. -/
theorem specInsert_capacity (t : SpecTable α) (k : String) (v : α) :
    (specInsert t k v).1.capacity = t.capacity := by
  unfold specInsert
  dsimp only
  split <;> rfl

/-- Summing `if k = j then c else 0` over `j < n` gives `c` when `k < n`. -/
theorem sum_map_range_ite (c : Nat) :
    ∀ n k : Nat, k < n →
      ((List.range n).map fun j => if k = j then c else 0).sum = c := by
  intro n
  induction n with
  | zero => intro k hk; omega
  | succ n ih =>
    intro k hk
    rw [List.range_succ, List.map_append, List.sum_append]
    by_cases h : k < n
    · rw [ih k h]
      have hne : (if k = n then c else 0) = 0 := by
        rw [if_neg]
        omega
      simp [hne]
    · have hkn : k = n := by omega
      subst hkn
      have hzero : ((List.range k).map fun j => if k = j then c else 0).sum = 0 := by
        apply List.sum_eq_zero
        intro x hx
        simp only [List.mem_map] at hx
        obtain ⟨j, hj, hxj⟩ := hx
        rw [List.mem_range] at hj
        rw [← hxj, if_neg]
        omega
      simp [hzero]

/-- A mapped sum distributes over pointwise addition. -/
theorem sum_map_add (l : List β) (f g : β → Nat) :
    (l.map fun x => f x + g x).sum = (l.map f).sum + (l.map g).sum := by
  induction l with
  | nil => simp
  | cons x l ih =>
    simp only [List.map_cons, List.sum_cons, ih]
    omega

/-- Partitioning a list by an index function with range `< n` preserves the
total length. -/
theorem sum_length_filter_partition (n : Nat) (f : β → Nat) :
    ∀ l : List β, (∀ e ∈ l, f e < n) →
      ((List.range n).map fun j => (l.filter fun e => f e = j).length).sum
        = l.length := by
  intro l
  induction l with
  | nil =>
    intro _
    apply List.sum_eq_zero
    intro x hx
    simp only [List.mem_map] at hx
    obtain ⟨j, _, hxj⟩ := hx
    simpa [List.filter_nil] using hxj.symm
  | cons b l ih =>
    intro h
    have hb : f b < n := h b (List.mem_cons_self b l)
    have hstep : ∀ j ∈ List.range n,
        ((b :: l).filter fun e => f e = j).length
          = (if f b = j then 1 else 0) + (l.filter fun e => f e = j).length := by
      intro j _
      rw [List.filter_cons]
      by_cases hj : f b = j
      · simp [hj]
        omega
      · simp [hj]
    rw [List.map_congr_left hstep, sum_map_add, sum_map_range_ite 1 n (f b) hb,
      ih fun e he => h e (List.mem_cons_of_mem b he)]
    simp only [List.length_cons]
    omega

/-- Counting occurrences in a filtered list: all or nothing, depending on
whether the counted element satisfies the predicate. -/
theorem count_filter_eq_ite [DecidableEq β] (l : List β) (f : β → Nat) (j : Nat)
    (x : β) :
    (l.filter fun e => f e = j).count x = if f x = j then l.count x else 0 := by
  by_cases h : f x = j
  · rw [if_pos h]
    exact List.count_filter (by simpa using h)
  · rw [if_neg h]
    simp [List.count_eq_zero, List.mem_filter, h]

/-- Resize preserves the total entry count (no entry is dropped). -/
theorem resize_count (t : SpecTable α) : specCount (resize t) = specCount t := by
  unfold specCount SpecTable.entries resize
  rw [List.length_flatten, List.map_map]
  have hlt : ∀ e ∈ t.buckets.flatten, newIndex (max 1 (t.capacity * 2)) e
      < max 1 (t.capacity * 2) := by
    intro e _
    exact Nat.mod_lt _ (by omega)
  simp only [Function.comp]
  exact sum_length_filter_partition (max 1 (t.capacity * 2))
    (newIndex (max 1 (t.capacity * 2))) t.buckets.flatten hlt

/-- Resize preserves the multiplicity of every entry (no entry is dropped or
duplicated). -/
theorem resize_count_entry [DecidableEq α] (t : SpecTable α) (x : Entry α) :
    ((resize t).entries).count x = (t.entries).count x := by
  unfold SpecTable.entries resize
  rw [List.count_flatten, List.map_map]
  have hcongr : ∀ j ∈ List.range (max 1 (t.capacity * 2)),
      ((t.buckets.flatten.filter
          fun e => newIndex (max 1 (t.capacity * 2)) e = j).count x)
        = if newIndex (max 1 (t.capacity * 2)) x = j
            then t.buckets.flatten.count x else 0 := by
    intro j _
    exact count_filter_eq_ite t.buckets.flatten _ j x
  have hx : newIndex (max 1 (t.capacity * 2)) x < max 1 (t.capacity * 2) :=
    Nat.mod_lt _ (by omega)
  simp only [Function.comp_def, SpecTable.entries]
  rw [List.map_congr_left hcongr]
  exact sum_map_range_ite (t.buckets.flatten.count x) (max 1 (t.capacity * 2))
    (newIndex (max 1 (t.capacity * 2)) x) hx

/-- The resized table has exactly one bucket per index of the new
capacity. -/
theorem resize_buckets_length (t : SpecTable α) :
    (resize t).buckets.length = (resize t).capacity := by
  simp [resize]

/-- Spec invariant 1 after resize: every entry sits in the bucket of its
index recomputed under the new capacity. -/
theorem resize_invariant1 (t : SpecTable α) (j : Nat) (e : Entry α)
    (he : e ∈ (resize t).buckets.getD j []) :
    newIndex (resize t).capacity e = j := by
  by_cases hj : j < max 1 (t.capacity * 2)
  · rw [resize, List.getD_eq_getElem?_getD, List.getElem?_map,
      List.getElem?_range hj] at he
    simp only [Option.map_some', Option.getD_some, List.mem_filter] at he
    simpa [resize] using of_decide_eq_true he.2
  · rw [resize, List.getD_eq_getElem?_getD, List.getElem?_map,
      List.getElem?_eq_none (by simpa using Nat.le_of_not_lt hj)] at he
    simp at he

/-- C2 (spec-modelled; resize is absent from the source): whenever an
insertion pushes the count over `0.75 * capacity`, `set` resizes the table
to capacity `max(1, old_capacity * 2)` and rehashes every entry: the new
table has one bucket per new index, the total count is preserved exactly,
no entry is dropped or duplicated (per-entry multiplicity is preserved), and
every entry sits in the bucket of its index recomputed under the new
capacity. -/
theorem specSet_resize_correct [DecidableEq α] (t : SpecTable α) (key : String)
    (value : α) (t1 : SpecTable α) (old : Option α)
    (hins : specInsert t key value = (t1, old))
    (htrig : 3 * t1.capacity < 4 * specCount t1) :
    specSet t key value = (resize t1, old) ∧
    (resize t1).capacity = max 1 (t.capacity * 2) ∧
    (resize t1).buckets.length = (resize t1).capacity ∧
    specCount (resize t1) = specCount t1 ∧
    (∀ e : Entry α, ((resize t1).entries).count e = (t1.entries).count e) ∧
    ∀ j : Nat, ∀ e ∈ (resize t1).buckets.getD j [],
      newIndex (resize t1).capacity e = j := by
  have hcap : t1.capacity = t.capacity := by
    have h := specInsert_capacity t key value
    rw [hins] at h
    exact h
  refine ⟨?_, ?_, resize_buckets_length t1, resize_count t1,
    fun e => resize_count_entry t1 e, fun j e he => resize_invariant1 t1 j e he⟩
  · unfold specSet
    rw [hins]
    simp [htrig]
  · rw [show (resize t1).capacity = max 1 (t1.capacity * 2) from rfl, hcap]

/-- Witness for `specSet_resize_correct`: inserting `"a"` into an empty
one-bucket table of capacity 1 makes the count 1 > 0.75, so `set` resizes to
capacity 2 while keeping the single entry. -/
theorem specSet_resize_correct_witness :
    specInsert (SpecTable.mk 1 [[]]) "a" (0 : Nat)
      = (SpecTable.mk 1 [[Entry.mk "a" 0]], Option.none) ∧
    3 * (SpecTable.mk 1 [[Entry.mk "a" 0]]).capacity
      < 4 * specCount (SpecTable.mk 1 [[Entry.mk "a" 0]]) ∧
    specSet (SpecTable.mk 1 [[]]) "a" (0 : Nat)
      = (resize (SpecTable.mk 1 [[Entry.mk "a" 0]]), Option.none) ∧
    (resize (SpecTable.mk 1 [[Entry.mk "a" 0]])).capacity = max 1 (1 * 2) ∧
    specCount (resize (SpecTable.mk 1 [[Entry.mk "a" 0]]))
      = specCount (SpecTable.mk 1 [[Entry.mk "a" 0]]) := by
  refine ⟨by decide, by decide, ?_, ?_, ?_⟩
  · exact (specSet_resize_correct (SpecTable.mk 1 [[]]) "a" 0
      (SpecTable.mk 1 [[Entry.mk "a" 0]]) Option.none (by decide) (by decide)).1
  · exact (specSet_resize_correct (SpecTable.mk 1 [[]]) "a" 0
      (SpecTable.mk 1 [[Entry.mk "a" 0]]) Option.none (by decide) (by decide)).2.1
  · exact (specSet_resize_correct (SpecTable.mk 1 [[]]) "a" 0
      (SpecTable.mk 1 [[Entry.mk "a" 0]]) Option.none (by decide) (by decide)).2.2.2.1
